import Mathlib

/-!
Verification of the incremental stream-to-file decoder of
`frontend/src/lib/api.js` (the `generateCode` function, the version at
lines 209-253, labelled "Code Generation API (Hijacked to Gemini Engine)").

The JavaScript strings are modelled as lists of characters (`Str`).
`JSON.parse` is modelled by `jsonParse`, a recursive-descent parser for the
JSON grammar; model boundaries (documented on the definitions): numerals with
a fractional or exponent part are kept as their source text rather than as
IEEE-754 floats, and a `\uXXXX` escape denoting half of a surrogate pair maps
to the replacement scalar that `Char.ofNat` yields.  Text chunks are modelled
after `TextDecoder.decode(value, \x7bstream: true\x7d)` has run, i.e. as
character sequences split at arbitrary character boundaries.
-/

/-- Model of a JavaScript string: a list of characters. -/
abbrev Str := List Char

/-- Coerce a Lean string literal into the model type. -/
def str (s : String) : Str := s.data

/-- The backtick character, written by code point. -/
def bt : Char := '`'

/-- Model of the JavaScript chunk operation `chunk.split('\n')`
(`api.js` line 237): split at every newline; a trailing newline yields a
final empty piece, and the empty string yields one empty piece. -/
def splitNl : Str → List Str
  | [] => [[]]
  | '\n' :: rest => [] :: splitNl rest
  | c :: rest =>
    match splitNl rest with
    | s :: ss => (c :: s) :: ss
    | [] => [[c]]

/-- JSON whitespace characters accepted around tokens by `JSON.parse`. -/
def isWsChar (c : Char) : Bool := c = ' ' || c = '\t' || c = '\n' || c = '\r'

/-- Drop leading JSON whitespace. -/
def skipWs : Str → Str
  | [] => []
  | c :: r => if isWsChar c then skipWs r else c :: r

/-- ASCII decimal digit test. -/
def isDigitCh (c : Char) : Bool := '0' ≤ c && c ≤ '9'

/-- Value of one hexadecimal digit, if any (code points compared numerically:
`0`-`9`, then `a`-`f`, then `A`-`F`). -/
def hexDigit (c : Char) : Option Nat :=
  let n := c.toNat
  if 48 ≤ n ∧ n ≤ 57 then some (n - 48)
  else if 97 ≤ n ∧ n ≤ 102 then some (n - 87)
  else if 65 ≤ n ∧ n ≤ 70 then some (n - 55)
  else none

/-- Longest prefix of decimal digits, and the remainder. -/
def takeDigits : Str → Str × Str
  | [] => ([], [])
  | c :: r =>
    if isDigitCh c then
      match takeDigits r with
      | (d, rest) => (c :: d, rest)
    else ([], c :: r)

/-- Model of a JavaScript value produced by `JSON.parse`.  Numerals without a
fractional or exponent part are held exactly as integers (`jnum`); numerals
with one are held as their source text (`jnumDec`) since their IEEE-754
canonicalisation is outside this model. -/
inductive JsVal where
  | jnull
  | jbool (b : Bool)
  | jnum (n : Int)
  | jnumDec (raw : Str)
  | jstr (s : Str)
  | jarr (elems : List JsVal)
  | jobj (fields : List (Str × JsVal))

/-- Is the value a JSON string? -/
def JsVal.isString : JsVal → Bool
  | .jstr _ => true
  | _ => false

/-- Single-character JSON escape (everything except `\uXXXX`). -/
def escChar (e : Char) : Option Char :=
  if e = '"' then some '"'
  else if e = '\\' then some '\\'
  else if e = '/' then some '/'
  else if e = 'b' then some (Char.ofNat 8)
  else if e = 'f' then some (Char.ofNat 12)
  else if e = 'n' then some '\n'
  else if e = 'r' then some '\r'
  else if e = 't' then some '\t'
  else none

/-- Prepend a character to the parsed-so-far part of a parser result. -/
def consFst (c : Char) : Option (Str × Str) → Option (Str × Str)
  | some (s, rest) => some (c :: s, rest)
  | none => none

/-- Body of a JSON string literal, after the opening quote: returns the
decoded characters and the remainder after the closing quote.  Raw control
characters below U+0020 are rejected, as `JSON.parse` rejects them. -/
def parseStrBody : Str → Option (Str × Str)
  | '"' :: r => some ([], r)
  | '\\' :: 'u' :: h1 :: h2 :: h3 :: h4 :: r =>
    (match hexDigit h1, hexDigit h2, hexDigit h3, hexDigit h4 with
     | some a, some b, some c, some d =>
       consFst (Char.ofNat (((a * 16 + b) * 16 + c) * 16 + d)) (parseStrBody r)
     | _, _, _, _ => none)
  | '\\' :: e :: r =>
    (match escChar e with
     | some c => consFst c (parseStrBody r)
     | none => none)
  | c :: r => if c.toNat < 32 then none else consFst c (parseStrBody r)
  | [] => none

/-- Digits of a numeral as a natural number. -/
def natOfDigits (ds : Str) : Nat := ds.foldl (fun a c => a * 10 + (c.toNat - 48)) 0

/-- Does the digit string start with `0`? -/
def headIs0 : Str → Bool
  | '0' :: _ => true
  | _ => false

/-- Exponent digits after `e`/`E` and an optional sign. -/
def expDigits (e : Char) (sign : Str) (r : Str) : Option (Str × Str) :=
  match takeDigits r with
  | ([], _) => none
  | (ds, rest) => some (e :: sign ++ ds, rest)

/-- Optional sign of an exponent part. -/
def expTail (e : Char) (r : Str) : Option (Str × Str) :=
  match r with
  | '+' :: r2 => expDigits e ['+'] r2
  | '-' :: r2 => expDigits e ['-'] r2
  | _ => expDigits e [] r

/-- Exponent part of a JSON numeral, if present. -/
def expPart (l : Str) : Option (Str × Str) :=
  match l with
  | 'e' :: r => expTail 'e' r
  | 'E' :: r => expTail 'E' r
  | _ => none

/-- Unsigned JSON numeral: integer part (no redundant leading zero), then an
optional fraction and an optional exponent. -/
def parseNumCore (l : Str) : Option (JsVal × Str) :=
  match takeDigits l with
  | ([], _) => none
  | (ds, r1) =>
    if ds.length > 1 && headIs0 ds then none
    else
      match r1 with
      | '.' :: r2 =>
        (match takeDigits r2 with
         | ([], _) => none
         | (fs, r3) =>
           match expPart r3 with
           | some (es, r4) => some (.jnumDec (ds ++ '.' :: fs ++ es), r4)
           | none => some (.jnumDec (ds ++ '.' :: fs), r3))
      | _ =>
        match expPart r1 with
        | some (es, r4) => some (.jnumDec (ds ++ es), r4)
        | none => some (.jnum (Int.ofNat (natOfDigits ds)), r1)

/-- Negate a parsed numeral. -/
def negNum : JsVal → JsVal
  | .jnum n => .jnum (-n)
  | .jnumDec raw => .jnumDec ('-' :: raw)
  | v => v

/-- Signed JSON numeral. -/
def parseNumber (l : Str) : Option (JsVal × Str) :=
  match l with
  | '-' :: r =>
    (match parseNumCore r with
     | some (v, rest) => some (negNum v, rest)
     | none => none)
  | _ => parseNumCore l

mutual

/-- Fuelled recursive-descent parser for one JSON value; follows the grammar
accepted by `JSON.parse`. -/
def parseValue : Nat → Str → Option (JsVal × Str)
  | 0, _ => none
  | fuel + 1, l =>
    match l with
    | 'n' :: 'u' :: 'l' :: 'l' :: r => some (.jnull, r)
    | 't' :: 'r' :: 'u' :: 'e' :: r => some (.jbool true, r)
    | 'f' :: 'a' :: 'l' :: 's' :: 'e' :: r => some (.jbool false, r)
    | '"' :: r =>
      (match parseStrBody r with
       | some (s, rest) => some (.jstr s, rest)
       | none => none)
    | '[' :: r =>
      (match skipWs r with
       | ']' :: r2 => some (.jarr [], r2)
       | r2 => parseItems fuel r2 [])
    | '{' :: r =>
      (match skipWs r with
       | '}' :: r2 => some (.jobj [], r2)
       | r2 => parseFields fuel r2 [])
    | _ => parseNumber l

/-- Fuelled parser for the items of a non-empty JSON array, ending at `]`. -/
def parseItems : Nat → Str → List JsVal → Option (JsVal × Str)
  | 0, _, _ => none
  | fuel + 1, l, acc =>
    match parseValue fuel (skipWs l) with
    | some (v, r) =>
      (match skipWs r with
       | ',' :: r2 => parseItems fuel r2 (acc ++ [v])
       | ']' :: r2 => some (.jarr (acc ++ [v]), r2)
       | _ => none)
    | none => none

/-- Fuelled parser for the fields of a non-empty JSON object, ending at `}`. -/
def parseFields : Nat → Str → List (Str × JsVal) → Option (JsVal × Str)
  | 0, _, _ => none
  | fuel + 1, l, acc =>
    match skipWs l with
    | '"' :: r =>
      (match parseStrBody r with
       | some (k, r2) =>
         (match skipWs r2 with
          | ':' :: r3 =>
            (match parseValue fuel (skipWs r3) with
             | some (v, r4) =>
               (match skipWs r4 with
                | ',' :: r5 => parseFields fuel r5 (acc ++ [(k, v)])
                | '}' :: r5 => some (.jobj (acc ++ [(k, v)]), r5)
                | _ => none)
             | none => none)
          | _ => none)
       | none => none)
    | _ => none

end

/-- Model of `JSON.parse(s)` (`api.js` line 242): leading and trailing
whitespace is allowed, the whole input must be consumed by one JSON value, and
any violation of the grammar yields `none` (a thrown `SyntaxError` in JS). -/
def jsonParse (s : Str) : Option JsVal :=
  let l := skipWs s
  match parseValue (2 * l.length + 4) l with
  | some (v, r) => if skipWs r = [] then some v else none
  | none => none

/-- Decimal digits of a natural number, via fuelled division by ten. -/
def digitsAux : Nat → Nat → Str → Str
  | 0, _, acc => acc
  | fuel + 1, n, acc =>
    if n < 10 then Char.ofNat (48 + n) :: acc
    else digitsAux fuel (n / 10) (Char.ofNat (48 + n % 10) :: acc)

/-- Decimal rendering of a natural number. -/
def natStr (n : Nat) : Str := digitsAux (n + 1) n []

/-- Decimal rendering of an integer, as JavaScript renders integral numbers. -/
def intStr : Int → Str
  | Int.ofNat n => natStr n
  | Int.negSucc n => '-' :: natStr (n + 1)

mutual

/-- JavaScript string coercion of a parsed value, as exercised by
`fullCode += text` (`api.js` line 243): strings pass through, integers print
in decimal, `null` prints as `"null"`, booleans as `"true"`/`"false"`, arrays
join their elements with commas (with `null` elements rendered empty), and
plain objects render as `"[object Object]"`.  A `jnumDec` keeps its source
text (IEEE-754 canonicalisation is outside the model). -/
def jsToString : JsVal → Str
  | .jnull => str "null"
  | .jbool true => str "true"
  | .jbool false => str "false"
  | .jnum n => intStr n
  | .jnumDec raw => raw
  | .jstr s => s
  | .jarr l => arrJoin l
  | .jobj _ => str "[object Object]"

/-- Comma-join of array elements under JavaScript `Array.prototype.toString`;
`null` elements render as the empty string. -/
def arrJoin : List JsVal → Str
  | [] => []
  | [.jnull] => []
  | [v] => jsToString v
  | .jnull :: rest => ',' :: arrJoin rest
  | v :: rest => jsToString v ++ ',' :: arrJoin rest

end

/-- After three backticks, the rest of an opening-fence match of the regex
`/```(html|javascript|css|tsx|jsx)?\n/`: one of the language tags in the order
written in the source, then a newline — or, failing all tags, the bare
newline.  Returns the remainder after the match. -/
def fenceTail : Str → Option Str
  | 'h' :: 't' :: 'm' :: 'l' :: '\n' :: r => some r
  | 'j' :: 'a' :: 'v' :: 'a' :: 's' :: 'c' :: 'r' :: 'i' :: 'p' :: 't' :: '\n' :: r => some r
  | 'c' :: 's' :: 's' :: '\n' :: r => some r
  | 't' :: 's' :: 'x' :: '\n' :: r => some r
  | 'j' :: 's' :: 'x' :: '\n' :: r => some r
  | '\n' :: r => some r
  | _ => none

/-- An opening-fence match at the current position: three backticks then
`fenceTail`.  Returns the remainder after the match. -/
def matchFence : Str → Option Str
  | '`' :: '`' :: '`' :: rest => fenceTail rest
  | _ => none

/-- Fuelled left-to-right scan of the global replacement
`.replace(/```(html|javascript|css|tsx|jsx)?\n/g, '')`
(`api.js` lines 231 and 244): at each position, the earliest regex alternative
that matches is deleted and the scan resumes after it; otherwise one character
is kept.  Each step consumes at least one character, so fuel equal to the
length of the input never runs out. -/
def stripOpenAux : Nat → Str → Str
  | 0, l => l
  | fuel + 1, l =>
    match l with
    | [] => []
    | c :: rest =>
      match matchFence (c :: rest) with
      | some r => stripOpenAux fuel r
      | none => c :: stripOpenAux fuel rest

/-- The opening-fence global replacement on a whole string. -/
def stripOpenCl (l : Str) : Str := stripOpenAux l.length l

/-- Left-to-right scan of the global replacement `.replace(/```/g, '')`
(`api.js` lines 231 and 244): every occurrence of three consecutive backticks
is deleted, the scan resuming after each deleted occurrence. -/
def stripCloseCl : Str → Str
  | '`' :: '`' :: '`' :: rest => stripCloseCl rest
  | c :: rest => c :: stripCloseCl rest
  | [] => []

/-- The display-text derivation of `api.js` lines 231 and 244: first remove
opening code-fence markers, then remove bare triple-backtick markers. -/
def stripFences (l : Str) : Str := stripCloseCl (stripOpenCl l)

/-- The events pushed to the `onEvent` sink by `generateCode`. -/
inductive Ev where
  | status (content : Str)
  | file (filename content : Str)
  | complete (content : Str)
  | preview (content : Str)
  | error (content : Str)
deriving DecidableEq

/-- The type tag of an event, for comparing event shapes. -/
inductive Tag where
  | status | file | complete | preview | error
deriving DecidableEq

/-- Tag of an event. -/
def evTag : Ev → Tag
  | .status _ => .status
  | .file _ _ => .file
  | .complete _ => .complete
  | .preview _ => .preview
  | .error _ => .error

/-- Is the event a `file` event? -/
def isFile : Ev → Bool
  | .file _ _ => true
  | _ => false

/-- Is the event a `complete` event? -/
def isComplete : Ev → Bool
  | .complete _ => true
  | _ => false

/-- Is the event an `error` event? -/
def isError : Ev → Bool
  | .error _ => true
  | _ => false

/-- Is the event a `preview` event? -/
def isPreview : Ev → Bool
  | .preview _ => true
  | _ => false

/-- The initial status message (`api.js` line 211). -/
def wakingMsg : Str := str "Waking up Rodney's Brain..."

/-- The second status message (`api.js` line 225). -/
def writingMsg : Str := str "Writing masterpiece..."

/-- The `complete` event message (`api.js` line 230). -/
def completeMsg : Str := str "Code generation complete!"

/-- The message of the error thrown on a non-success HTTP status
(`api.js` line 219). -/
def connFailMsg : Str := str "Brain Connection Failed"

/-- The `error` event content built from a failure message
(`api.js` line 251, the template `System Error: ...`). -/
def sysErrMsg (m : Str) : Str := str "System Error: " ++ m

/-- Model of `line.startsWith('0:')` (`api.js` line 240). -/
def startsWith0Colon : Str → Bool
  | '0' :: ':' :: _ => true
  | _ => false

/-- One iteration of the inner `for (const line of lines)` body
(`api.js` lines 240-246): a line with the `0:` prefix whose remainder parses
as JSON appends the value's string coercion to the accumulated code and emits
a `file` event carrying the freshly stripped full text; any other line is
skipped. -/
def processLine (fc : Str) (line : Str) : Str × List Ev :=
  if startsWith0Colon line then
    match jsonParse (line.drop 2) with
    | some v =>
      let fc2 := fc ++ jsToString v
      (fc2, [Ev.file (str "index.html") (stripFences fc2)])
    | none => (fc, [])
  else (fc, [])

/-- The inner `for` loop over the lines of one chunk (`api.js` lines 239-248),
in order, threading the accumulated code. -/
def processLines (fc : Str) : List Str → Str × List Ev
  | [] => (fc, [])
  | l :: ls =>
    ((processLines (processLine fc l).1 ls).1,
     (processLine fc l).2 ++ (processLines (processLine fc l).1 ls).2)

/-- Processing of one decoded chunk (`api.js` lines 236-248): split the chunk
on newlines — with no carry-over of a partial final line — and run the line
loop. -/
def processChunk (fc chunk : Str) : Str × List Ev := processLines fc (splitNl chunk)

/-- Whether the stream ends normally or the pending read rejects with a
failure message. -/
inductive StreamTail where
  | eos
  | fail (msg : Str)

/-- One decoder session's input: the fetch promise rejects, or the response
has a non-success status (its body, never read, is carried for completeness),
or the body is delivered as a chunk sequence ending in `StreamTail`. -/
inductive Session where
  | fetchFail (msg : Str)
  | httpError (body : List Str)
  | stream (chunks : List Str) (tail : StreamTail)

/-- The `while (true)` read loop of `generateCode` (`api.js` lines 227-249):
each chunk is processed in turn; at end of stream the `complete` event and the
final `preview` event (recomputed from the full accumulated code) are emitted;
a rejected read escapes to the `catch` block, which emits one `error` event. -/
def runLoop (fc : Str) : List Str → StreamTail → List Ev
  | [], .eos => [Ev.complete completeMsg, Ev.preview (stripFences fc)]
  | [], .fail m => [Ev.error (sysErrMsg m)]
  | c :: cs, t =>
    (processChunk fc c).2 ++ runLoop (processChunk fc c).1 cs t

/-- The event trace of one `generateCode` session (`api.js` lines 209-253):
the initial status event precedes the request; a rejected fetch or a
non-success response status reaches the `catch` block, which emits one
`error` event; otherwise the second status event is emitted and the read loop
runs. -/
def generateCode : Session → List Ev
  | .fetchFail m => [Ev.status wakingMsg, Ev.error (sysErrMsg m)]
  | .httpError _ => [Ev.status wakingMsg, Ev.error (sysErrMsg connFailMsg)]
  | .stream chunks t => Ev.status wakingMsg :: Ev.status writingMsg :: runLoop [] chunks t

/-- The accumulated code (`fullCode`) after the whole chunk list has been
processed, starting from `fc`. -/
def accumFrom (fc : Str) : List Str → Str
  | [] => fc
  | c :: cs => accumFrom (processChunk fc c).1 cs

/-- The final accumulated code of a session fed the given chunks. -/
def finalCode (chunks : List Str) : Str := accumFrom [] chunks

/-- A line the decoder skips: wrong prefix, or a payload `JSON.parse` rejects
(`api.js` lines 240-246). -/
def invalidLine (l : Str) : Bool :=
  !startsWith0Colon l || (jsonParse (l.drop 2)).isNone

/-- Events remaining strictly after the first `complete` event. -/
def afterFirstComplete : List Ev → List Ev
  | [] => []
  | e :: rest => if isComplete e then rest else afterFirstComplete rest

/-- Events remaining strictly after the first `error` event. -/
def afterFirstError : List Ev → List Ev
  | [] => []
  | e :: rest => if isError e then rest else afterFirstError rest

def headBT (l : Str) : Bool := match l with | c :: _ => c = '`' | [] => false
def starts2 (l : Str) : Bool := match l with | a :: b :: _ => a = '`' && b = '`' | _ => false
def starts3 (l : Str) : Bool := match l with | a :: b :: c :: _ => a = '`' && b = '`' && c = '`' | _ => false
def has3 : Str → Bool
  | [] => false
  | c :: r => starts3 (c :: r) || has3 r

lemma starts2_eq (c : Char) (t : Str) : starts2 (c :: t) = (decide (c = '`') && headBT t) := by
  rcases t with _ | ⟨b, t2⟩ <;> simp [starts2, headBT]

lemma starts3_eq (c : Char) (t : Str) : starts3 (c :: t) = (decide (c = '`') && starts2 t) := by
  rcases t with _ | ⟨b, t2⟩
  · simp [starts3, starts2]
  · rcases t2 with _ | ⟨d, t3⟩ <;> simp [starts3, starts2, Bool.and_assoc]

lemma stripCloseCl_cons_nomatch (c : Char) (rest : Str) (h : starts3 (c :: rest) = false) :
    stripCloseCl (c :: rest) = c :: stripCloseCl rest := by
  rw [stripCloseCl.eq_def]
  split
  · rename_i rest1 heq
    injection heq with h1 h2
    subst h1; subst h2
    simp [starts3] at h
  · rename_i c2 rest2 hno heq
    injection heq with h1 h2
    subst h1; subst h2
    rfl
  · rename_i heq
    exact absurd heq (by simp)

lemma headBT_false_starts2 {r : Str} (h : headBT r = false) : starts2 r = false := by
  rcases r with _ | ⟨c, r2⟩
  · rfl
  · simp only [headBT] at h
    simp [starts2_eq, h]

lemma starts2_shape {r : Str} (h : starts2 r = true) : ∃ r2, r = '`' :: '`' :: r2 := by
  rcases r with _ | ⟨a, r1⟩
  · simp [starts2] at h
  · rcases r1 with _ | ⟨b, r2⟩
    · simp [starts2] at h
    · simp only [starts2, Bool.and_eq_true, decide_eq_true_eq] at h
      exact ⟨r2, by rw [h.1, h.2]⟩

lemma stripCloseCl_headBT {l : Str} (h : headBT l = false) : headBT (stripCloseCl l) = false := by
  rcases l with _ | ⟨c, r⟩
  · rfl
  · simp only [headBT] at h
    rw [stripCloseCl_cons_nomatch c r (by simp [starts3_eq, h])]
    simp [headBT, h]

lemma stripCloseCl_starts2 {l : Str} (h : starts2 l = false) : starts2 (stripCloseCl l) = false := by
  rcases l with _ | ⟨c, r⟩
  · rfl
  · rw [starts2_eq] at h
    by_cases hc : c = '`'
    · rw [hc] at h
      rw [show (decide (('`':Char) = '`') && headBT r) = headBT r by simp] at h
      rw [stripCloseCl_cons_nomatch c r (by simp [starts3_eq, hc, headBT_false_starts2 h])]
      rw [starts2_eq]
      simp [stripCloseCl_headBT h]
    · rw [stripCloseCl_cons_nomatch c r (by simp [starts3_eq, hc])]
      simp [starts2_eq, hc]

lemma has3_stripCloseCl (l : Str) : has3 (stripCloseCl l) = false := by
  induction l using stripCloseCl.induct with
  | case1 rest ih =>
    show has3 (stripCloseCl ('`' :: '`' :: '`' :: rest)) = false
    rw [show stripCloseCl ('`' :: '`' :: '`' :: rest) = stripCloseCl rest from rfl]
    exact ih
  | case2 c rest hno ih =>
    have hs3 : starts3 (c :: rest) = false := by
      by_contra hx
      rw [Bool.not_eq_false, starts3_eq, Bool.and_eq_true, decide_eq_true_eq] at hx
      obtain ⟨r2, hr⟩ := starts2_shape hx.2
      exact hno r2 hx.1 hr
    rw [stripCloseCl_cons_nomatch c rest hs3]
    rw [show has3 (c :: stripCloseCl rest) = (starts3 (c :: stripCloseCl rest) || has3 (stripCloseCl rest)) from rfl]
    rw [ih, starts3_eq]
    by_cases hc : c = '`'
    · have h2 : starts2 rest = false := by
        by_contra hx
        rw [Bool.not_eq_false] at hx
        obtain ⟨r2, hr⟩ := starts2_shape hx
        exact hno r2 hc hr
      simp [stripCloseCl_starts2 h2]
    · simp [hc]
  | case3 => rfl

lemma stripCloseCl_no3 {l : Str} (h : has3 l = false) : stripCloseCl l = l := by
  induction l with
  | nil => rfl
  | cons c r ih =>
    rw [show has3 (c :: r) = (starts3 (c :: r) || has3 r) from rfl, Bool.or_eq_false_iff] at h
    rw [stripCloseCl_cons_nomatch c r h.1, ih h.2]

lemma matchFence_nomatch {l : Str} (h : starts3 l = false) : matchFence l = none := by
  rw [matchFence.eq_def]
  split
  · rename_i rest heq
    simp [starts3] at h
  · rfl

lemma stripOpenAux_no3 (fuel : Nat) : ∀ l : Str, l.length ≤ fuel → has3 l = false → stripOpenAux fuel l = l := by
  induction fuel with
  | zero => intro l _ _; rfl
  | succ fuel ih =>
    intro l hlen h
    rcases l with _ | ⟨c, r⟩
    · rfl
    · rw [show has3 (c :: r) = (starts3 (c :: r) || has3 r) from rfl, Bool.or_eq_false_iff] at h
      show (match matchFence (c :: r) with
            | some r2 => stripOpenAux fuel r2
            | none => c :: stripOpenAux fuel r) = c :: r
      rw [matchFence_nomatch h.1]
      rw [ih r (by simpa using Nat.le_of_succ_le_succ hlen) h.2]

lemma stripOpenCl_no3 {l : Str} (h : has3 l = false) : stripOpenCl l = l :=
  stripOpenAux_no3 l.length l (Nat.le_refl _) h

lemma has3_stripFences (l : Str) : has3 (stripFences l) = false := has3_stripCloseCl (stripOpenCl l)



lemma isFile_not_complete {e : Ev} (h : isFile e = true) : isComplete e = false := by
  cases e <;> simp_all [isFile, isComplete]

lemma isFile_not_error {e : Ev} (h : isFile e = true) : isError e = false := by
  cases e <;> simp_all [isFile, isError]

lemma isFile_not_preview {e : Ev} (h : isFile e = true) : isPreview e = false := by
  cases e <;> simp_all [isFile, isPreview]

lemma processLine_all_file (fc l : Str) : ∀ e ∈ (processLine fc l).2, isFile e = true := by
  intro e he
  unfold processLine at he
  split at he
  · split at he
    · simp at he
      subst he
      rfl
    · simp at he
  · simp at he

lemma processLines_all_file (ls : List Str) : ∀ (fc : Str), ∀ e ∈ (processLines fc ls).2, isFile e = true := by
  induction ls with
  | nil => intro fc e he; simp [processLines] at he
  | cons l ls ih =>
    intro fc e he
    rcases List.mem_append.mp he with h | h
    · exact processLine_all_file fc l e h
    · exact ih _ e h

lemma runLoop_eos_decomp (chunks : List Str) : ∀ fc : Str,
    ∃ pre, runLoop fc chunks .eos =
        pre ++ [Ev.complete completeMsg, Ev.preview (stripFences (accumFrom fc chunks))] ∧
      ∀ e ∈ pre, isFile e = true := by
  induction chunks with
  | nil => exact fun fc => ⟨[], rfl, by simp⟩
  | cons c cs ih =>
    intro fc
    obtain ⟨pre, heq, hfile⟩ := ih (processChunk fc c).1
    refine ⟨(processChunk fc c).2 ++ pre, ?_, ?_⟩
    · show (processChunk fc c).2 ++ runLoop (processChunk fc c).1 cs .eos = _
      rw [heq, List.append_assoc]
      rfl
    · intro e he
      rcases List.mem_append.mp he with h | h
      · exact processLines_all_file _ _ e h
      · exact hfile e h

lemma runLoop_fail_decomp (chunks : List Str) (m : Str) : ∀ fc : Str,
    ∃ pre, runLoop fc chunks (.fail m) = pre ++ [Ev.error (sysErrMsg m)] ∧
      ∀ e ∈ pre, isFile e = true := by
  induction chunks with
  | nil => exact fun fc => ⟨[], rfl, by simp⟩
  | cons c cs ih =>
    intro fc
    obtain ⟨pre, heq, hfile⟩ := ih (processChunk fc c).1
    refine ⟨(processChunk fc c).2 ++ pre, ?_, ?_⟩
    · show (processChunk fc c).2 ++ runLoop (processChunk fc c).1 cs (.fail m) = _
      rw [heq, List.append_assoc]
    · intro e he
      rcases List.mem_append.mp he with h | h
      · exact processLines_all_file _ _ e h
      · exact hfile e h

lemma afterFirstComplete_cons_false {e : Ev} (h : isComplete e = false) (l : List Ev) :
    afterFirstComplete (e :: l) = afterFirstComplete l := by
  simp [afterFirstComplete, h]

lemma afterFirstComplete_cons_true {e : Ev} (h : isComplete e = true) (l : List Ev) :
    afterFirstComplete (e :: l) = l := by
  simp [afterFirstComplete, h]

lemma afterFirstComplete_append {l : List Ev} (h : ∀ e ∈ l, isComplete e = false) (r : List Ev) :
    afterFirstComplete (l ++ r) = afterFirstComplete r := by
  induction l with
  | nil => rfl
  | cons e es ih =>
    rw [List.cons_append, afterFirstComplete_cons_false (h e (by simp))]
    exact ih fun x hx => h x (by simp [hx])

lemma afterFirstError_cons_false {e : Ev} (h : isError e = false) (l : List Ev) :
    afterFirstError (e :: l) = afterFirstError l := by
  simp [afterFirstError, h]

lemma afterFirstError_cons_true {e : Ev} (h : isError e = true) (l : List Ev) :
    afterFirstError (e :: l) = l := by
  simp [afterFirstError, h]

lemma afterFirstError_append {l : List Ev} (h : ∀ e ∈ l, isError e = false) (r : List Ev) :
    afterFirstError (l ++ r) = afterFirstError r := by
  induction l with
  | nil => rfl
  | cons e es ih =>
    rw [List.cons_append, afterFirstError_cons_false (h e (by simp))]
    exact ih fun x hx => h x (by simp [hx])

lemma afterFirstError_none {l : List Ev} (h : ∀ e ∈ l, isError e = false) :
    afterFirstError l = [] := by
  induction l with
  | nil => rfl
  | cons e es ih =>
    rw [afterFirstError_cons_false (h e (by simp))]
    exact ih fun x hx => h x (by simp [hx])

lemma filter_eq_nil_of_none {p : Ev → Bool} {l : List Ev} (h : ∀ e ∈ l, p e = false) :
    l.filter p = [] := by
  induction l with
  | nil => rfl
  | cons e es ih =>
    rw [List.filter_cons_of_neg (by simp [h e (by simp)])]
    exact ih fun x hx => h x (by simp [hx])

lemma processLine_skip {l : Str} (h : invalidLine l = true) (fc : Str) :
    processLine fc l = (fc, []) := by
  unfold processLine
  rw [invalidLine, Bool.or_eq_true] at h
  rcases h with h | h
  · rw [Bool.not_eq_true'] at h
    rw [h]
    rfl
  · rw [Option.isNone_iff_eq_none] at h
    by_cases hs : startsWith0Colon l = true
    · rw [if_pos hs, h]
    · rw [if_neg (by simp [hs])]

/-- C1: the spec requires chunk-boundary-independent line reassembly (feeding
`0:"Hel` then `lo"\n` must equal feeding `0:"Hello"\n` in one chunk), but the
code splits each chunk on newlines independently, with no carry-over buffer,
so a record split across two chunks is dropped entirely: the one-chunk stream
accumulates `Hello` while the split stream accumulates nothing. -/
theorem C1_split_record_dropped :
    finalCode [str "0:\"Hello\"\n"] = str "Hello" ∧
    finalCode [str "0:\"Hel", str "lo\"\n"] = str "" ∧
    finalCode [str "0:\"Hel", str "lo\"\n"] ≠ finalCode [str "0:\"Hello\"\n"] :=
  ⟨by decide, by decide, by decide⟩

/-- C2 counterexample: for the successful stream `0:"Hi"\n`, the events after
the `complete` event contain no `file` event at all — in particular not the
final recomputed `file` event the claim requires (the code emits a `preview`
event there instead). -/
theorem C2_counterexample :
    (afterFirstComplete (generateCode (.stream [str "0:\"Hi\"\n"] .eos))).filter isFile = [] ∧
    (afterFirstComplete (generateCode (.stream [str "0:\"Hi\"\n"] .eos))).filter isFile ≠
      [Ev.file (str "index.html") (str "Hi")] :=
  ⟨by decide, by decide⟩

/-- C2 (amended): for every successful stream, exactly one `complete` event is
emitted, and it is followed by exactly one final `preview` event recomputed
from the then-current accumulated text; no `file` event is emitted after
`complete`. -/
theorem C2_complete_then_preview (chunks : List Str) :
    ((generateCode (.stream chunks .eos)).filter isComplete).length = 1 ∧
    afterFirstComplete (generateCode (.stream chunks .eos)) =
      [Ev.preview (stripFences (finalCode chunks))] := by
  obtain ⟨pre, heq, hfile⟩ := runLoop_eos_decomp chunks []
  have hgen : generateCode (.stream chunks .eos) =
      Ev.status wakingMsg :: Ev.status writingMsg ::
        (pre ++ [Ev.complete completeMsg, Ev.preview (stripFences (finalCode chunks))]) := by
    show Ev.status wakingMsg :: Ev.status writingMsg :: runLoop [] chunks .eos = _
    rw [heq]
    rfl
  constructor
  · rw [hgen, List.filter_cons_of_neg (by simp [isComplete]),
        List.filter_cons_of_neg (by simp [isComplete]), List.filter_append,
        filter_eq_nil_of_none fun e he => isFile_not_complete (hfile e he)]
    simp [List.filter, isComplete]
  · rw [hgen, afterFirstComplete_cons_false (by rfl),
        afterFirstComplete_cons_false (by rfl),
        afterFirstComplete_append (fun e he => isFile_not_complete (hfile e he)),
        afterFirstComplete_cons_true (by rfl)]

/-- C3: the final display for scenario B is `<div>x</div>` when the chunks
arrive split at record boundaries, but the claim's "regardless of how the
stream is split into chunks" fails: with a split inside the `<div>` record,
the content record is dropped (no carry-over buffer) and the final display is
empty. -/
theorem C3_scenarioB_display_depends_on_split :
    stripFences (finalCode
        [str "0:\"```html\\n\"\n", str "0:\"<div>x</div>\"\n", str "0:\"```\""]) =
      str "<div>x</div>" ∧
    stripFences (finalCode
        [str "0:\"```html\\n\"\n0:\"<div>", str "x</div>\"\n0:\"```\""]) = str "" :=
  ⟨by decide, by decide⟩

/-- C4: a session whose HTTP response has a non-success status emits exactly
the initial `status` event and one `error` event — one `error`, no `file`, no
`complete` — and the response body is never touched (the trace is the same for
every body). -/
theorem C4_http_error_only (body : List Str) :
    generateCode (.httpError body) = [Ev.status wakingMsg, Ev.error (sysErrMsg connFailMsg)] ∧
    ((generateCode (.httpError body)).filter isError).length = 1 ∧
    (generateCode (.httpError body)).filter isFile = [] ∧
    (generateCode (.httpError body)).filter isComplete = [] :=
  ⟨rfl, rfl, rfl, rfl⟩

/-- C5: a line that fails the record-prefix check or whose payload fails JSON
decoding is skipped without any effect: the line loop run on any line sequence
containing it returns the same accumulated text and the same events as with
the line removed, and the line loop never emits an `error` event. -/
theorem C5_invalid_line_transparent (fc : Str) (pre post : List Str) (l : Str)
    (h : invalidLine l = true) :
    processLines fc (pre ++ l :: post) = processLines fc (pre ++ post) ∧
    ∀ e ∈ (processLines fc (pre ++ l :: post)).2, isError e = false := by
  constructor
  · induction pre generalizing fc with
    | nil =>
      show processLines fc (l :: post) = processLines fc post
      show ((processLines (processLine fc l).1 post).1,
            (processLine fc l).2 ++ (processLines (processLine fc l).1 post).2) = _
      rw [processLine_skip h]
      rfl
    | cons a as ih =>
      show ((processLines (processLine fc a).1 (as ++ l :: post)).1,
            (processLine fc a).2 ++ (processLines (processLine fc a).1 (as ++ l :: post)).2) =
          ((processLines (processLine fc a).1 (as ++ post)).1,
            (processLine fc a).2 ++ (processLines (processLine fc a).1 (as ++ post)).2)
      rw [ih (processLine fc a).1]
  · exact fun e he => isFile_not_error (processLines_all_file _ _ e he)

/-- C5 witness: the invalid line `0:oops` between the valid records `0:"a"`
and `0:"b"` is skipped with no effect and no `error` event. -/
theorem C5_witness :
    invalidLine (str "0:oops") = true ∧
    (processLines (str "") ([str "0:\"a\""] ++ str "0:oops" :: [str "0:\"b\""]) =
        processLines (str "") ([str "0:\"a\""] ++ [str "0:\"b\""]) ∧
      ∀ e ∈ (processLines (str "") ([str "0:\"a\""] ++ str "0:oops" :: [str "0:\"b\""])).2,
        isError e = false) :=
  ⟨by decide,
   C5_invalid_line_transparent (str "") [str "0:\"a\""] [str "0:\"b\""] (str "0:oops")
     (by decide)⟩

/-- C6: in every session — fetch rejection, non-success status, successful
stream, or a stream whose read fails — at most one `error` event is emitted,
and no `complete` event follows an `error` event. -/
theorem C6_at_most_one_error (s : Session) :
    ((generateCode s).filter isError).length ≤ 1 ∧
    (afterFirstError (generateCode s)).filter isComplete = [] := by
  cases s with
  | fetchFail m =>
    refine ⟨by simp [generateCode, List.filter, isError], ?_⟩
    rw [show generateCode (.fetchFail m) =
          [Ev.status wakingMsg, Ev.error (sysErrMsg m)] from rfl,
        afterFirstError_cons_false (by rfl), afterFirstError_cons_true (by rfl)]
    rfl
  | httpError body =>
    refine ⟨by simp [generateCode, List.filter, isError], ?_⟩
    rw [show generateCode (.httpError body) =
          [Ev.status wakingMsg, Ev.error (sysErrMsg connFailMsg)] from rfl,
        afterFirstError_cons_false (by rfl), afterFirstError_cons_true (by rfl)]
    rfl
  | stream chunks t =>
    cases t with
    | eos =>
      obtain ⟨pre, heq, hfile⟩ := runLoop_eos_decomp chunks []
      have hnone : ∀ e ∈ generateCode (.stream chunks .eos), isError e = false := by
        intro e he
        rw [show generateCode (.stream chunks .eos) =
              Ev.status wakingMsg :: Ev.status writingMsg :: runLoop [] chunks .eos from rfl,
            heq] at he
        simp at he
        rcases he with rfl | rfl | h | rfl | rfl
        · rfl
        · rfl
        · exact isFile_not_error (hfile e h)
        · rfl
        · rfl
      exact ⟨by rw [filter_eq_nil_of_none hnone]; simp,
             by rw [afterFirstError_none hnone]; rfl⟩
    | fail m =>
      obtain ⟨pre, heq, hfile⟩ := runLoop_fail_decomp chunks m []
      have hgen : generateCode (.stream chunks (.fail m)) =
          Ev.status wakingMsg :: Ev.status writingMsg :: (pre ++ [Ev.error (sysErrMsg m)]) := by
        show Ev.status wakingMsg :: Ev.status writingMsg :: runLoop [] chunks (.fail m) = _
        rw [heq]
      constructor
      · rw [hgen, List.filter_cons_of_neg (by simp [isError]),
            List.filter_cons_of_neg (by simp [isError]), List.filter_append,
            filter_eq_nil_of_none fun e he => isFile_not_error (hfile e he)]
        simp [List.filter, isError]
      · rw [hgen, afterFirstError_cons_false (by rfl), afterFirstError_cons_false (by rfl),
            afterFirstError_append (fun e he => isFile_not_error (hfile e he)),
            afterFirstError_cons_true (by rfl)]
        rfl

/-- C7: the display-text derivation — first the global opening-fence
replacement, then the global triple-backtick replacement — is idempotent. -/
theorem C7_stripFences_idempotent (s : Str) :
    stripFences (stripFences s) = stripFences s := by
  show stripCloseCl (stripOpenCl (stripFences s)) = stripFences s
  rw [stripOpenCl_no3 (has3_stripFences s), stripCloseCl_no3 (has3_stripFences s)]

/-- C8 counterexample: for scenario A the emitted event shape is
`status, status, file, complete, preview`, not the claimed
`status, file, complete, file`. -/
theorem C8_counterexample :
    (generateCode (.stream [str "0:\"<p>Hi</p>\"\n"] .eos)).map evTag ≠
      [Tag.status, Tag.file, Tag.complete, Tag.file] := by
  decide

/-- C8 (amended): for scenario A the emitted event sequence is exactly
`status("Waking up..."), status("Writing masterpiece..."),
file(index.html, "<p>Hi</p>"), complete, preview("<p>Hi</p>")`; and the
initial `status` event precedes the network request — it is the first event of
every session, whatever the transport does. -/
theorem C8_scenarioA_trace :
    generateCode (.stream [str "0:\"<p>Hi</p>\"\n"] .eos) =
      [Ev.status wakingMsg, Ev.status writingMsg,
       Ev.file (str "index.html") (str "<p>Hi</p>"),
       Ev.complete completeMsg, Ev.preview (str "<p>Hi</p>")] ∧
    ∀ s : Session, ∃ rest, generateCode s = Ev.status wakingMsg :: rest := by
  refine ⟨by decide, fun s => ?_⟩
  cases s <;> exact ⟨_, rfl⟩

/-- C9: every successful stream emits exactly one `preview` event, and the
events after the `complete` event are exactly that one `preview` event, whose
content is the fence-stripped full accumulated text. -/
theorem C9_preview_after_complete (chunks : List Str) :
    ((generateCode (.stream chunks .eos)).filter isPreview).length = 1 ∧
    afterFirstComplete (generateCode (.stream chunks .eos)) =
      [Ev.preview (stripFences (finalCode chunks))] := by
  obtain ⟨pre, heq, hfile⟩ := runLoop_eos_decomp chunks []
  have hgen : generateCode (.stream chunks .eos) =
      Ev.status wakingMsg :: Ev.status writingMsg ::
        (pre ++ [Ev.complete completeMsg, Ev.preview (stripFences (finalCode chunks))]) := by
    show Ev.status wakingMsg :: Ev.status writingMsg :: runLoop [] chunks .eos = _
    rw [heq]
    rfl
  constructor
  · rw [hgen, List.filter_cons_of_neg (by simp [isPreview]),
        List.filter_cons_of_neg (by simp [isPreview]), List.filter_append,
        filter_eq_nil_of_none fun e he => isFile_not_preview (hfile e he)]
    simp [List.filter, isPreview]
  · rw [hgen, afterFirstComplete_cons_false (by rfl),
        afterFirstComplete_cons_false (by rfl),
        afterFirstComplete_append (fun e he => isFile_not_complete (hfile e he)),
        afterFirstComplete_cons_true (by rfl)]

/-- C10: a complete line with the `0:` prefix whose remainder parses as JSON
of a non-string type is not skipped: the JavaScript string coercion of the
parsed value is appended to the accumulated text and a `file` event is
emitted. -/
theorem C10_nonstring_payload_coerced (fc l : Str) (v : JsVal)
    (h1 : startsWith0Colon l = true) (h2 : jsonParse (l.drop 2) = some v)
    (_h3 : v.isString = false) :
    processLine fc l =
      (fc ++ jsToString v,
       [Ev.file (str "index.html") (stripFences (fc ++ jsToString v))]) := by
  unfold processLine
  rw [if_pos h1, h2]

/-- C10 witness: the line `0:123` parses as the JSON number `123`, a
non-string value, and its coercion `123` is appended and announced by a `file`
event. -/
theorem C10_witness :
    startsWith0Colon (str "0:123") = true ∧
    jsonParse ((str "0:123").drop 2) = some (JsVal.jnum 123) ∧
    JsVal.isString (JsVal.jnum 123) = false ∧
    processLine (str "") (str "0:123") =
      (str "" ++ jsToString (JsVal.jnum 123),
       [Ev.file (str "index.html") (stripFences (str "" ++ jsToString (JsVal.jnum 123)))]) :=
  ⟨by decide, by rfl, by decide,
   C10_nonstring_payload_coerced (str "") (str "0:123") (JsVal.jnum 123)
     (by decide) (by rfl) (by decide)⟩
